import Mathlib

/-!
Verification development for the burnbot repository: the festival event
recommendation engine (temporal query parsing, candidate filtering,
reranking, dedupe/cap) and the frontend favorites / week-view logic.

Frontend components (`SearchForm.jsx`, `Results.jsx`, `WeekView.jsx`,
`favorites.jsx`) are embedded directly from the JavaScript source.  The
backend recommendation service (`recommendation_service.py`) is not part of
the source tree; where a definition models it, its doc comment says so and
follows the specification and the in-repo design documents
(`docs/AI_RECOMMENDATION_ENGINE_PLAN.md`, backend README).
-/

set_option maxRecDepth 4000

namespace Burnbot

/-- One occurrence of an event: `{date (MM/DD/YYYY), start_time (HH:MM),
end_time (HH:MM)}`, as in the corpus JSON and the Pydantic `EventTime`
model. -/
structure EventTime where
  date : String
  start_time : String
  end_time : String
deriving DecidableEq, Repr

/-- An event record as loaded from the corpus (`Event` Pydantic model /
frontend event objects).  Fields not used by any claim (`campurl`,
`location`, coordinates) are omitted from the embedding. -/
structure Event where
  id : String
  times : List EventTime
  type : String
  camp : String
  description : String
  title : String
deriving DecidableEq, Repr

/-! ### String utilities

The JavaScript code manipulates strings with `split`, `trim`, `Number` and
`toLowerCase`.  These are modelled on `List Char` so that every definition
kernel-reduces.  `Number(...)` is modelled on the unsigned-decimal subset of
the JS numeric grammar, which is the only form the `HH:MM` / token data
uses; every other non-empty string models as `none` (JS `NaN`). -/

/-- Split a character list on a separator character (JS `s.split(sep)`):
`":30" ↦ ["", "30"]`, `"" ↦ [""]`. -/
def splitOn (sep : Char) : List Char → List (List Char)
  | [] => [[]]
  | c :: cs =>
    let rest := splitOn sep cs
    if c = sep then [] :: rest
    else
      match rest with
      | [] => [[c]]
      | w :: ws => (c :: w) :: ws

/-- Parse a non-empty all-digit string as a natural number; `none` models JS
`NaN` for anything else. -/
def digitsToNat : List Char → Option Nat
  | [] => none
  | cs =>
    if cs.all (fun c => c.isDigit) then
      some (cs.foldl (fun acc c => acc * 10 + (c.toNat - 48)) 0)
    else none

/-- JS `Number(part || 0)` as used in `timeToMinutes`: an empty / missing
part is replaced by the number `0` before conversion; a malformed part gives
`NaN` (`none`). -/
def numVal (cs : List Char) : Option Nat :=
  if cs.isEmpty then some 0 else digitsToNat cs

/-- The hours and minutes parts of a time string: `parts[0] || 0` and
`parts[1] || 0` of `t.split(":")` (a missing `parts[1]` models as `[]`). -/
def timeParts (t : String) : List Char × List Char :=
  let parts := splitOn ':' t.data
  (parts.headD [], (parts.drop 1).headD [])

/-- `timeToMinutes` from `WeekView.jsx` / `PrintDay.jsx`: expects `HH:MM`
(24h) and falls back to `0` (midnight) when the input is missing or either
part is not numeric. -/
def timeToMinutes (t : String) : Nat :=
  match numVal (timeParts t).1, numVal (timeParts t).2 with
  | some hours, some minutes => hours * 60 + minutes
  | _, _ => 0

/-- JS `toLowerCase` restricted to ASCII letters (the only characters the
token tables contain). -/
def toLowerChar (c : Char) : Char :=
  if 'A' ≤ c ∧ c ≤ 'Z' then Char.ofNat (c.toNat + 32) else c

/-- Characters the JS `trim()` removes (the whitespace forms that occur in
query input). -/
def isJsWhitespace (c : Char) : Bool :=
  c = ' ' || c = '\t' || c = '\n' || c = '\r'

/-- JS `String.prototype.trim`: strip leading and trailing whitespace. -/
def jsTrim (s : String) : String :=
  ⟨((s.data.dropWhile isJsWhitespace).reverse.dropWhile isJsWhitespace).reverse⟩

/-! ### Temporal domain of the recommendation engine

The recommendation service itself (`website/backend/app/services/
recommendation_service.py`) is not part of the source tree; the definitions
below are modelled from the specification and from the in-repo design
document `docs/AI_RECOMMENDATION_ENGINE_PLAN.md` (weekday tokens,
time-of-day buckets, filter behaviour). -/

/-- A day of the week, the optional `weekday` field of a `Query Intent`. -/
inductive Weekday where
  | monday | tuesday | wednesday | thursday | friday | saturday | sunday
deriving DecidableEq, Repr

/-- One of the four fixed time-of-day partitions used by temporal
filtering. -/
inductive TimeBucket where
  | morning | afternoon | evening | night
deriving DecidableEq, Repr

/-- Modelled from the spec: the fixed time-of-day partition used by the
recommendation backend — morning 05:00–11:59, afternoon 12:00–16:59,
evening 17:00–20:59, night 21:00–04:59 (wraps midnight).  Input is minutes
after midnight. -/
def timeBucketOfMinutes (m : Nat) : TimeBucket :=
  if 5 * 60 ≤ m ∧ m < 12 * 60 then .morning
  else if 12 * 60 ≤ m ∧ m < 17 * 60 then .afternoon
  else if 17 * 60 ≤ m ∧ m < 21 * 60 then .evening
  else .night

/-- Membership of a minute-of-day in a bucket, read directly off the
interval wording of the spec (`night` is the wrapping interval). -/
def inBucket (b : TimeBucket) (m : Nat) : Prop :=
  match b with
  | .morning => 5 * 60 ≤ m ∧ m ≤ 11 * 60 + 59
  | .afternoon => 12 * 60 ≤ m ∧ m ≤ 16 * 60 + 59
  | .evening => 17 * 60 ≤ m ∧ m ≤ 20 * 60 + 59
  | .night => 21 * 60 ≤ m ∨ m < 5 * 60

instance (b : TimeBucket) (m : Nat) : Decidable (inBucket b m) := by
  cases b <;> simp only [inBucket] <;> infer_instance

/-- Parse `MM/DD/YYYY` into `(month, day, year)`; `none` when the string
does not have three numeric slash-separated fields. -/
def parseDate (s : String) : Option (Nat × Nat × Nat) :=
  match (splitOn '/' s.data).map digitsToNat with
  | [some m, some d, some y] => some (m, d, y)
  | _ => none

/-- Day of week by Zeller's congruence: `0 = Saturday, 1 = Sunday, …,
6 = Friday`.  Models the backend's weekday-of-date computation (Python
`datetime`), which derives the weekday from the calendar date. -/
def zeller (month day year : Nat) : Nat :=
  let m := if month ≤ 2 then month + 12 else month
  let yAdj := if month ≤ 2 then year - 1 else year
  let k := yAdj % 100
  let j := yAdj / 100
  (day + (13 * (m + 1)) / 5 + k + k / 4 + j / 4 + 5 * j) % 7

/-- Translate a Zeller index to a `Weekday`. -/
def weekdayOfZeller (h : Nat) : Weekday :=
  match h % 7 with
  | 0 => .saturday
  | 1 => .sunday
  | 2 => .monday
  | 3 => .tuesday
  | 4 => .wednesday
  | 5 => .thursday
  | _ => .friday

/-- Modelled from the spec: the weekday of an occurrence is computed from
its `MM/DD/YYYY` date field; an unparseable date yields `none`. -/
def weekdayOfDate (s : String) : Option Weekday :=
  (parseDate s).map (fun p => weekdayOfZeller (zeller p.1 p.2.1 p.2.2))

/-- Derived, ephemeral temporal intent of a query: optional weekday and
optional time bucket. -/
structure QueryIntent where
  weekday : Option Weekday
  time_bucket : Option TimeBucket
deriving DecidableEq, Repr

/-! ### Temporal query parser (modelled from the spec) -/

/-- Split lowercased text into its maximal alphabetic runs (whole words);
the accumulator carries the current word reversed. -/
def splitWordsAux : List Char → List Char → List (List Char)
  | [], acc => if acc.isEmpty then [] else [acc.reverse]
  | c :: cs, acc =>
    if c.isAlpha then splitWordsAux cs (c :: acc)
    else if acc.isEmpty then splitWordsAux cs []
    else acc.reverse :: splitWordsAux cs []

/-- The whole words of a query, lowercased: token matching is
case-insensitive whole-word matching, so substrings inside longer words
(e.g. "sun" inside "sunny") never match. -/
def wordsOf (s : String) : List String :=
  (splitWordsAux (s.data.map toLowerChar) []).map (fun cs => ⟨cs⟩)

/-- Modelled from the spec: the recognized weekday tokens — full names and
the listed abbreviations. -/
def weekdayTokens : List (String × Weekday) :=
  [("monday", .monday), ("mon", .monday),
   ("tuesday", .tuesday), ("tue", .tuesday), ("tues", .tuesday),
   ("wednesday", .wednesday), ("wed", .wednesday),
   ("thursday", .thursday), ("thu", .thursday), ("thur", .thursday),
   ("thurs", .thursday),
   ("friday", .friday), ("fri", .friday),
   ("saturday", .saturday), ("sat", .saturday),
   ("sunday", .sunday), ("sun", .sunday)]

/-- Modelled from the spec: the recognized time-of-day tokens — the four
bucket names plus the synonyms "latenight" and "tonight" (the two-word
synonym "late night" is matched through its word "night"). -/
def timeTokens : List (String × TimeBucket) :=
  [("morning", .morning), ("afternoon", .afternoon),
   ("evening", .evening), ("night", .night),
   ("latenight", .night), ("tonight", .night)]

/-- Look a word up in a token table. -/
def lookupToken {α : Type} (table : List (String × α)) (w : String) : Option α :=
  (table.find? (fun p => p.1 = w)).map (fun p => p.2)

/-- Modelled from the spec: the Temporal Query Parser scans the query's
whole words (case-insensitively) and takes the first weekday token and the
first time-of-day token, either of which may be absent. -/
def parseQuery (q : String) : QueryIntent :=
  { weekday := (wordsOf q).findSome? (lookupToken weekdayTokens)
    time_bucket := (wordsOf q).findSome? (lookupToken timeTokens) }

/-! ### Candidate filter (modelled from the spec) -/

/-- The start of an occurrence in minutes after midnight, parsed from its
`HH:MM` field. -/
def startMinutes (t : EventTime) : Nat :=
  timeToMinutes t.start_time

/-- Does this occurrence fall on the given weekday? -/
def occMatchesWeekday (w : Weekday) (t : EventTime) : Bool :=
  weekdayOfDate t.date = some w

/-- Does this occurrence's start time fall in the given bucket? -/
def occMatchesBucket (b : TimeBucket) (t : EventTime) : Bool :=
  timeBucketOfMinutes (startMinutes t) = b

/-- Step 1: keep events having at least one occurrence whose weekday AND
start-time bucket both match. -/
def filterStep1 (w : Weekday) (b : TimeBucket) (cands : List Event) : List Event :=
  cands.filter (fun e => e.times.any (fun t => occMatchesWeekday w t && occMatchesBucket b t))

/-- Step 2: keep events having at least one occurrence on the weekday
(time bucket ignored). -/
def filterStep2 (w : Weekday) (cands : List Event) : List Event :=
  cands.filter (fun e => e.times.any (fun t => occMatchesWeekday w t))

/-- Step 3: keep events having at least one occurrence starting in the
bucket (weekday ignored). -/
def filterStep3 (b : TimeBucket) (cands : List Event) : List Event :=
  cands.filter (fun e => e.times.any (fun t => occMatchesBucket b t))

/-- Modelled from the spec: the Candidate Filter with progressive fallback —
both constraints, then weekday only, then time-of-day only, then the
original candidates; the first non-empty result wins. -/
def filterCandidates (qi : QueryIntent) (cands : List Event) : List Event :=
  match qi.weekday, qi.time_bucket with
  | some w, some b =>
    let s1 := filterStep1 w b cands
    if s1.isEmpty then
      let s2 := filterStep2 w cands
      if s2.isEmpty then
        let s3 := filterStep3 b cands
        if s3.isEmpty then cands else s3
      else s2
    else s1
  | some w, none =>
    let s2 := filterStep2 w cands
    if s2.isEmpty then cands else s2
  | none, some b =>
    let s3 := filterStep3 b cands
    if s3.isEmpty then cands else s3
  | none, none => cands

/-! ### Reranker and Dedupe&Cap (modelled from the spec) -/

/-- Outcome of the external rerank call: either any failure (network error,
timeout, exception) or a model answer consisting of an ordered id list and a
rationale string. -/
inductive RerankOutcome where
  | failure
  | success (ids : List String) (rationale : String)

/-- Modelled from the spec: the fail-soft rerank wrapper.  On failure it
returns the unreranked candidates with no rationale; on success it maps the
returned ids back to candidate events (ids naming no candidate are dropped,
so no new event is ever introduced), and falls back to the unreranked
candidates with no rationale when the model output selects nothing usable. -/
def applyRerank (cands : List Event) (out : RerankOutcome) :
    List Event × Option String :=
  match out with
  | .failure => (cands, none)
  | .success ids r =>
    let sel := ids.filterMap (fun i => cands.find? (fun c => c.id = i))
    if sel.isEmpty then (cands, none) else (sel, some r)

/-- Remove events whose id was already seen, keeping the first occurrence
in rank order. -/
def dedupeAux (seen : List String) : List Event → List Event
  | [] => []
  | e :: es =>
    if seen.contains e.id then dedupeAux seen es
    else e :: dedupeAux (e.id :: seen) es

/-- Modelled from the spec: `Dedupe&Cap` — remove duplicate event ids
(first occurrence wins, preserving rank), then truncate to `max_results`. -/
def dedupeCap (maxResults : Nat) (evs : List Event) : List Event :=
  (dedupeAux [] evs).take maxResults

/-- Modelled from the spec: the tail of the recommend pipeline after
temporal filtering — optional rerank, then `Dedupe&Cap`; the rationale is
present exactly when the rerank step produced one. -/
def recommendRespond (cands : List Event) (out : RerankOutcome)
    (maxResults : Nat) : List Event × Option String :=
  let reranked := applyRerank cands out
  (dedupeCap maxResults reranked.1, reranked.2)

/-! ### SearchForm and Results (embedded from `SearchForm.jsx`,
`Results.jsx`)

JS numbers in the max-results path are either a numeric value or `NaN`
(from `Number` on a non-numeric field); `Option Int` models this with
`none` for `NaN`. -/

/-- JS `n || d` on a number: `NaN` and `0` are falsy and fall through to
the default. -/
def jsOrNum (n : Option Int) (d : Int) : Int :=
  match n with
  | none => d
  | some v => if v = 0 then d else v

/-- `SearchForm.onSubmit`'s clamp:
`Math.min(Math.max(1, Number(maxResults) || Number(initialMaxResults) || 5), 50)`. -/
def clampResults (maxResults initialMax : Option Int) : Int :=
  min (max 1 (jsOrNum maxResults (jsOrNum initialMax 5))) 50

/-- `SearchForm.onSubmit`: when the trimmed query is empty the handler
returns without navigating (`none`); otherwise it navigates to the results
page with the raw query and the clamped result count. -/
def searchFormSubmit (query : String) (maxResults initialMax : Option Int) :
    Option (String × Int) :=
  if jsTrim query = "" then none
  else some (query, clampResults maxResults initialMax)

/-- `Results.run`: when the trimmed query is empty the effect returns
without calling `recommend` (`none`); otherwise `recommend(q, k)` is
issued. -/
def resultsRun (q : String) (k : Int) : Option (String × Int) :=
  if jsTrim q = "" then none else some (q, k)

/-! ### FavoritesProvider state updates (embedded from
`services/favorites.jsx`)

Each definition is the pure `prev => …` state updater the component passes
to `setFavoriteEvents`, together with the early-return guards around it.
JS `!event.id` is modelled as the id being the empty string. -/

/-- `addFavorite`: no-op on a missing id; otherwise append unless an event
with the same id is already present. -/
def addFavoriteUpdate (event : Event) (prev : List Event) : List Event :=
  if event.id = "" then prev
  else if prev.any (fun ev => ev.id = event.id) then prev
  else prev ++ [event]

/-- `removeFavorite`: no-op on a missing id; otherwise keep only events
with a different id. -/
def removeFavoriteUpdate (eventId : String) (prev : List Event) : List Event :=
  if eventId = "" then prev
  else prev.filter (fun ev => ev.id ≠ eventId)

/-- `toggleFavorite`: no-op on a missing id; if the id is present (the
`favoriteIdsSet` check) remove it, otherwise append unless present. -/
def toggleFavoriteUpdate (event : Event) (prev : List Event) : List Event :=
  if event.id = "" then prev
  else if prev.any (fun ev => ev.id = event.id) then
    prev.filter (fun ev => ev.id ≠ event.id)
  else if prev.any (fun ev => ev.id = event.id) then prev
  else prev ++ [event]

/-- The `toAdd` list of `addManyFavorites`: the input events that have an
id and whose id is not already present (`existingIds` check). -/
def addManyToAdd (events prev : List Event) : List Event :=
  events.filter (fun ev => ev.id ≠ "" && !(prev.any (fun p => p.id = ev.id)))

/-- `addManyFavorites`: append the input events that have an id and whose
id is not already present, preserving their input order. -/
def addManyFavoritesUpdate (events : List Event) (prev : List Event) : List Event :=
  if events.isEmpty then prev
  else if (addManyToAdd events prev).isEmpty then prev
  else prev ++ addManyToAdd events prev

/-- No two events in the list share an id (the implicit invariant of the
favorites list). -/
def IdsNodup (l : List Event) : Prop :=
  l.Pairwise (fun a b => a.id ≠ b.id)

instance (l : List Event) : Decidable (IdsNodup l) := by
  unfold IdsNodup; infer_instance

/-! ### Week View (embedded from `pages/WeekView.jsx`) -/

/-- The seven fixed festival dates of `WEEK_DAYS`. -/
def weekDates : List String :=
  ["08/24/2025", "08/25/2025", "08/26/2025", "08/27/2025",
   "08/28/2025", "08/29/2025", "08/30/2025"]

/-- One rendered entry of a day column: the favorite event together with
the occurrence shown. -/
structure DayItem where
  event : Event
  time : EventTime
deriving DecidableEq, Repr

/-- The type filter of the Week View: `All Events` passes everything,
any other selection must equal the event's type. -/
def passesTypeFilter (typeFilter : String) (ev : Event) : Bool :=
  typeFilter = "All Events" || ev.type = typeFilter

/-- The entries pushed into one day's column before sorting: for each
favorite in order, each of its occurrences on that date that passes the
type filter. -/
def dayEntries (favorites : List Event) (typeFilter : String)
    (dateStr : String) : List DayItem :=
  favorites.flatMap (fun ev =>
    ev.times.filterMap (fun t =>
      if t.date = dateStr && passesTypeFilter typeFilter ev then
        some ⟨ev, t⟩
      else none))

/-- Ordering of day entries: ascending parsed start time. -/
def itemLE (a b : DayItem) : Prop :=
  timeToMinutes a.time.start_time ≤ timeToMinutes b.time.start_time

instance : DecidableRel itemLE :=
  fun _ _ => Nat.decLe _ _

instance : IsTotal DayItem itemLE :=
  ⟨fun _ _ => Nat.le_total _ _⟩

instance : IsTrans DayItem itemLE :=
  ⟨fun _ _ _ => Nat.le_trans⟩

/-- `byDate` of `WeekView.jsx`: a column exists only for the seven festival
dates; its entries are the favorites' occurrences on that date passing the
type filter, sorted by ascending start time (JS
`items.sort((a, b) => timeToMinutes(a) - timeToMinutes(b))`). -/
def byDate (favorites : List Event) (typeFilter : String)
    (dateStr : String) : List DayItem :=
  if weekDates.contains dateStr then
    List.insertionSort itemLE (dayEntries favorites typeFilter dateStr)
  else []

/-! ### Concrete sample data used by witnesses and counterexamples -/

/-- An occurrence on Thursday 08/28/2025 starting 22:00 (night bucket). -/
def thursdayNightSlot : EventTime :=
  ⟨"08/28/2025", "22:00", "23:00"⟩

/-- An occurrence on Friday 08/29/2025 starting 18:00 (evening bucket). -/
def fridayEveningSlot : EventTime :=
  ⟨"08/29/2025", "18:00", "19:00"⟩

/-- An occurrence on Thursday 08/28/2025 starting 09:00 (morning bucket). -/
def thursdayMorningSlot : EventTime :=
  ⟨"08/28/2025", "09:00", "10:00"⟩

/-- An occurrence on Friday 08/29/2025 starting 22:00 (night bucket). -/
def fridayNightSlot : EventTime :=
  ⟨"08/29/2025", "22:00", "23:00"⟩

/-- A sample event occurring only Thursday 22:00–23:00. -/
def danceEvent : Event :=
  ⟨"ev-dance", [thursdayNightSlot], "Music/Party", "Camp A", "dance party", "Dance"⟩

/-- A sample event occurring only Friday evening. -/
def artEvent : Event :=
  ⟨"ev-art", [fridayEveningSlot], "Arts & Crafts", "Camp B", "art class", "Art"⟩

/-- A sample event matching Thursday only in the morning and the night
bucket only on Friday: no single occurrence is Thursday night. -/
def mixedEvent : Event :=
  ⟨"ev-mixed", [thursdayMorningSlot, fridayNightSlot], "Other", "Camp C", "mixed", "Mixed"⟩

/-- Two distinct sample records sharing one event id. -/
def dupEventA : Event :=
  ⟨"dup", [], "Other", "Camp D", "first copy", "A"⟩

/-- Second sample record with the same id as `dupEventA`. -/
def dupEventB : Event :=
  ⟨"dup", [], "Other", "Camp D", "second copy", "B"⟩

/-! ## Theorems -/

/-- C2: time-of-day bucketing is a fixed partition of the 24-hour clock
into exactly four buckets — 05:00–11:59 morning, 12:00–16:59 afternoon,
17:00–20:59 evening, and at or after 21:00 or strictly before 05:00 night;
each start time belongs to the bucket it is mapped to and to no other. -/
theorem timeBucket_partition (m : Nat) (hm : m < 1440) :
    inBucket (timeBucketOfMinutes m) m ∧
      ∀ b : TimeBucket, inBucket b m → b = timeBucketOfMinutes m := by
  unfold timeBucketOfMinutes
  constructor
  · split_ifs with h1 h2 h3 <;> simp only [inBucket] <;> omega
  · intro b hb
    cases b <;> simp only [inBucket] at hb <;> split_ifs <;> first | rfl | omega

/-- Witness for C2 at the concrete start time 05:30 (330 minutes). -/
theorem timeBucket_partition_witness :
    inBucket (timeBucketOfMinutes 330) 330 ∧
      ∀ b : TimeBucket, inBucket b 330 → b = timeBucketOfMinutes 330 :=
  timeBucket_partition 330 (by decide)

/-- C1: the Candidate Filter's progressive fallback — step 1 (weekday AND
bucket), then step 2 (weekday only), then step 3 (bucket only), then the
original candidates, first non-empty result winning — never maps a
non-empty candidate list to an empty result, for every intent. -/
theorem filterCandidates_progressive_nonempty :
    (∀ (qi : QueryIntent) (cands : List Event),
        cands ≠ [] → filterCandidates qi cands ≠ []) ∧
    (∀ (w : Weekday) (b : TimeBucket) (cands : List Event),
        (filterStep1 w b cands ≠ [] →
          filterCandidates ⟨some w, some b⟩ cands = filterStep1 w b cands) ∧
        (filterStep1 w b cands = [] → filterStep2 w cands ≠ [] →
          filterCandidates ⟨some w, some b⟩ cands = filterStep2 w cands) ∧
        (filterStep1 w b cands = [] → filterStep2 w cands = [] →
          filterStep3 b cands ≠ [] →
          filterCandidates ⟨some w, some b⟩ cands = filterStep3 b cands) ∧
        (filterStep1 w b cands = [] → filterStep2 w cands = [] →
          filterStep3 b cands = [] →
          filterCandidates ⟨some w, some b⟩ cands = cands)) := by
  constructor
  · rintro ⟨w, b⟩ cands h
    cases w <;> cases b <;>
      simp only [filterCandidates] <;>
      first
        | exact h
        | (split_ifs <;> simp_all [List.isEmpty_iff])
  · intro w b cands
    refine ⟨?_, ?_, ?_, ?_⟩ <;>
      intros <;>
      simp_all [filterCandidates, List.isEmpty_iff]

/-- Witness for C1: a non-empty candidate list whose single event matches
neither the weekday nor the bucket still yields a non-empty result (final
fallback). -/
theorem filterCandidates_progressive_nonempty_witness :
    filterCandidates ⟨some .thursday, some .night⟩ [artEvent] ≠ [] :=
  filterCandidates_progressive_nonempty.1 ⟨some .thursday, some .night⟩
    [artEvent] (by decide)

/-- C3: step 1 keeps exactly the candidates having a single occurrence
satisfying both constraints at once; in the "dancing Thursday night"
scenario only the Thursday-22:00 event is kept — the Friday-evening event
and an event matching Thursday and night only on different occurrences are
dropped. -/
theorem filterStep1_same_occurrence :
    (∀ (w : Weekday) (b : TimeBucket) (cands : List Event) (e : Event),
        e ∈ filterStep1 w b cands ↔
          e ∈ cands ∧ ∃ t, t ∈ e.times ∧
            occMatchesWeekday w t = true ∧ occMatchesBucket b t = true) ∧
    filterStep1 .thursday .night [artEvent, danceEvent, mixedEvent]
      = [danceEvent] := by
  constructor
  · intro w b cands e
    simp [filterStep1, List.mem_filter, List.any_eq_true, Bool.and_eq_true]
  · decide

/-- C4: a query with no weekday and no time-of-day token as a whole word
parses to an intent with both fields unset, and the Candidate Filter is the
identity on such an intent. -/
theorem parseQuery_no_tokens (q : String)
    (hw : ∀ w ∈ wordsOf q, w ∉ weekdayTokens.map Prod.fst)
    (hb : ∀ w ∈ wordsOf q, w ∉ timeTokens.map Prod.fst) :
    parseQuery q = ⟨none, none⟩ ∧
      ∀ cands : List Event, filterCandidates (parseQuery q) cands = cands := by
  have key : ∀ {α : Type} (tbl : List (String × α)) (w : String),
      w ∉ tbl.map Prod.fst → lookupToken tbl w = none := by
    intro α tbl w hmem
    unfold lookupToken
    rw [List.find?_eq_none.mpr]
    · rfl
    · intro p hp
      simp only [decide_eq_true_eq]
      intro he
      exact hmem (List.mem_map.mpr ⟨p, hp, he⟩)
  have h1 : (wordsOf q).findSome? (lookupToken weekdayTokens) = none :=
    List.findSome?_eq_none_iff.mpr (fun w hwq => key weekdayTokens w (hw w hwq))
  have h2 : (wordsOf q).findSome? (lookupToken timeTokens) = none :=
    List.findSome?_eq_none_iff.mpr (fun w hwq => key timeTokens w (hb w hwq))
  have hpq : parseQuery q = ⟨none, none⟩ := by
    unfold parseQuery
    rw [h1, h2]
  exact ⟨hpq, fun cands => by rw [hpq]; rfl⟩

/-- Witness for C4: "sunny dancing" holds "sun" only inside a longer word,
so it parses with both fields unset and the filter is the identity. -/
theorem parseQuery_no_tokens_witness :
    parseQuery "sunny dancing" = ⟨none, none⟩ ∧
      ∀ cands : List Event,
        filterCandidates (parseQuery "sunny dancing") cands = cands :=
  parseQuery_no_tokens "sunny dancing" (by decide) (by decide)

/-- C5: the Reranker never introduces an event outside its input
candidates; on any failure of the external call it returns the unreranked
candidates unchanged with no rationale, and the overall recommend response
then holds the top unreranked candidates and omits the rationale. -/
theorem applyRerank_failSoft :
    (∀ (cands : List Event) (out : RerankOutcome) (e : Event),
        e ∈ (applyRerank cands out).1 → e ∈ cands) ∧
    (∀ cands : List Event, applyRerank cands .failure = (cands, none)) ∧
    (∀ (cands : List Event) (n : Nat),
        recommendRespond cands .failure n = (dedupeCap n cands, none)) := by
  refine ⟨?_, fun _ => rfl, fun _ _ => rfl⟩
  intro cands out e he
  match out with
  | .failure => exact he
  | .success ids r =>
    simp only [applyRerank] at he
    split at he
    · exact he
    · rcases List.mem_filterMap.mp he with ⟨i, _, hfind⟩
      exact List.mem_of_find?_eq_some hfind

/-- Witness for C5: an event selected by a successful rerank answer was
already among the candidates. -/
theorem applyRerank_failSoft_witness :
    artEvent ∈ [danceEvent, artEvent] :=
  applyRerank_failSoft.1 [danceEvent, artEvent]
    (.success ["ev-art", "bogus-id"] "matches the query") artEvent (by decide)

/-- C6: an empty or whitespace-only query is rejected before any
recommendation request: the search form handler does not navigate and the
results page effect does not call recommend. -/
theorem blankQuery_no_recommend (q : String)
    (h : ∀ c ∈ q.data, isJsWhitespace c = true) :
    (∀ maxResults initialMax : Option Int,
        searchFormSubmit q maxResults initialMax = none) ∧
    (∀ k : Int, resultsRun q k = none) := by
  have ht : jsTrim q = "" := by
    unfold jsTrim
    rw [List.dropWhile_eq_nil_iff.mpr h]
    rfl
  exact ⟨fun _ _ => by simp [searchFormSubmit, ht],
         fun _ => by simp [resultsRun, ht]⟩

/-- Witness for C6 at the concrete whitespace-only query `"  \n "`. -/
theorem blankQuery_no_recommend_witness :
    (∀ maxResults initialMax : Option Int,
        searchFormSubmit "  \n " maxResults initialMax = none) ∧
    (∀ k : Int, resultsRun "  \n " k = none) :=
  blankQuery_no_recommend "  \n " (by decide)

/-- Every event produced by `dedupeAux` comes from the input and its id was
not among the already-seen ids. -/
theorem dedupeAux_mem (seen : List String) (l : List Event) (e : Event)
    (h : e ∈ dedupeAux seen l) : e ∈ l ∧ e.id ∉ seen := by
  induction l generalizing seen with
  | nil => simp [dedupeAux] at h
  | cons a t ih =>
    simp only [dedupeAux] at h
    by_cases hc : seen.contains a.id
    · rw [if_pos hc] at h
      rcases ih seen h with ⟨h1, h2⟩
      exact ⟨List.mem_cons_of_mem a h1, h2⟩
    · rw [if_neg hc] at h
      rcases List.mem_cons.mp h with he | he
      · subst he
        exact ⟨List.mem_cons_self e t, fun hs => hc (List.elem_iff.mpr hs)⟩
      · rcases ih (a.id :: seen) he with ⟨h1, h2⟩
        exact ⟨List.mem_cons_of_mem a h1,
               fun hs => h2 (List.mem_cons_of_mem a.id hs)⟩

/-- `dedupeAux` output has pairwise-distinct event ids. -/
theorem dedupeAux_idsNodup (seen : List String) (l : List Event) :
    IdsNodup (dedupeAux seen l) := by
  induction l generalizing seen with
  | nil => exact List.Pairwise.nil
  | cons a t ih =>
    simp only [dedupeAux]
    split
    · exact ih seen
    · refine List.Pairwise.cons (fun b hb => ?_) (ih (a.id :: seen))
      have hb2 := (dedupeAux_mem (a.id :: seen) t b hb).2
      exact fun he => hb2 (he ▸ List.mem_cons_self a.id seen)

/-- `dedupeAux` is the identity on a list whose ids are pairwise distinct
and disjoint from the seen set. -/
theorem dedupeAux_eq_self (seen : List String) (l : List Event)
    (hnd : IdsNodup l) (hs : ∀ e ∈ l, e.id ∉ seen) :
    dedupeAux seen l = l := by
  induction l generalizing seen with
  | nil => rfl
  | cons a t ih =>
    rcases List.pairwise_cons.mp hnd with ⟨hhead, htail⟩
    simp only [dedupeAux]
    rw [if_neg (fun hc => hs a (List.mem_cons_self a t)
          (List.elem_iff.mp hc))]
    congr 1
    refine ih (a.id :: seen) htail (fun e het hmem => ?_)
    rcases List.mem_cons.mp hmem with he | he
    · exact hhead e het he.symm
    · exact hs e (List.mem_cons_of_mem a het) he

/-- C7: `Dedupe&Cap` (drop duplicate ids keeping the first occurrence in
rank order, then truncate to `max_results`) is idempotent: applying it to
its own output changes nothing, for every list and every cap. -/
theorem dedupeCap_idempotent (n : Nat) (evs : List Event) :
    dedupeCap n (dedupeCap n evs) = dedupeCap n evs := by
  unfold dedupeCap
  have hnd : IdsNodup ((dedupeAux [] evs).take n) :=
    (dedupeAux_idsNodup [] evs).sublist (List.take_sublist n _)
  rw [dedupeAux_eq_self [] _ hnd (by simp)]
  rw [List.take_take n n _, Nat.min_self]

/-- C8 counterexample: an entered value of `-3` (not a positive number,
with default `5`) is clamped to `1`; it does not fall back to the
default. -/
theorem searchFormClamp_counterexample :
    searchFormSubmit "party" (some (-3)) (some 5) = some ("party", 1) ∧
      (1 : Int) ≠ 5 := by
  decide

/-- C8 (amended): every value the form submits to recommend lies in the
inclusive range 1 to 50; a non-numeric or zero entry falls back to the
default before clamping, while a negative entry is clamped up to 1 (not
replaced by the default), so an out-of-range request count is never
issued. -/
theorem searchFormClamp_range :
    (∀ m i : Option Int, 1 ≤ clampResults m i ∧ clampResults m i ≤ 50) ∧
    (∀ i : Option Int, clampResults none i = min (max 1 (jsOrNum i 5)) 50) ∧
    (∀ i : Option Int, clampResults (some 0) i = min (max 1 (jsOrNum i 5)) 50) ∧
    (∀ (v : Int) (i : Option Int), v < 0 → clampResults (some v) i = 1) ∧
    (∀ (q : String) (m i : Option Int) (r : String × Int),
        searchFormSubmit q m i = some r → 1 ≤ r.2 ∧ r.2 ≤ 50) := by
  have hrange : ∀ m i : Option Int,
      1 ≤ clampResults m i ∧ clampResults m i ≤ 50 := by
    intro m i
    unfold clampResults
    rw [Int.min_def, Int.max_def]
    split_ifs <;> omega
  refine ⟨hrange, fun i => rfl, ?_, ?_, ?_⟩
  · intro i
    simp [clampResults, jsOrNum]
  · intro v i hv
    have hvne : ¬ v = 0 := by omega
    simp only [clampResults, jsOrNum, if_neg hvne]
    rw [Int.min_def, Int.max_def]
    split_ifs <;> omega
  · intro q m i r hr
    unfold searchFormSubmit at hr
    split at hr
    · exact absurd hr (by simp)
    · have : r = (q, clampResults m i) := by
        exact (Option.some_injective _ hr).symm
      rw [this]
      exact hrange m i

/-- Witness for C8: the negative entry `-3` submits the in-range value 1. -/
theorem searchFormClamp_range_witness :
    clampResults (some (-3)) (some 5) = 1 :=
  searchFormClamp_range.2.2.2.1 (-3) (some 5) (by decide)

/-- C9 counterexample: `toggleFavorite` on an already-present id removes
the event rather than leaving the list unchanged, and one
`addManyFavorites` batch holding two records with the same id appends both,
breaking the no-duplicate-ids invariant. -/
theorem favorites_invariant_counterexample :
    toggleFavoriteUpdate dupEventA [dupEventA] = [] ∧
      toggleFavoriteUpdate dupEventA [dupEventA] ≠ [dupEventA] ∧
      addManyFavoritesUpdate [dupEventA, dupEventB] [] = [dupEventA, dupEventB] ∧
      ¬ IdsNodup (addManyFavoritesUpdate [dupEventA, dupEventB] []) := by
  refine ⟨by decide, by decide, by decide, ?_⟩
  intro h
  have := List.rel_of_pairwise_cons h (List.mem_singleton.mpr rfl)
  exact this rfl

/-- C9 (amended): `addFavorite` leaves the list unchanged when the id is
present; `toggleFavorite` removes every event with the id when present and
appends otherwise; `removeFavorite` (non-empty id) removes every event with
the id; `addManyFavorites` appends exactly the input events with a new id,
preserving input order; and the no-duplicate-ids invariant is preserved by
every update, for `addManyFavorites` provided the batch itself has
pairwise-distinct ids. -/
theorem favorites_updates_amended :
    (∀ (e : Event) (prev : List Event),
        IdsNodup prev → IdsNodup (addFavoriteUpdate e prev)) ∧
    (∀ (i : String) (prev : List Event),
        IdsNodup prev → IdsNodup (removeFavoriteUpdate i prev)) ∧
    (∀ (e : Event) (prev : List Event),
        IdsNodup prev → IdsNodup (toggleFavoriteUpdate e prev)) ∧
    (∀ (evs prev : List Event),
        IdsNodup prev → IdsNodup evs →
        IdsNodup (addManyFavoritesUpdate evs prev)) ∧
    (∀ (e : Event) (prev : List Event),
        prev.any (fun ev => ev.id = e.id) = true →
        addFavoriteUpdate e prev = prev) ∧
    (∀ (e : Event) (prev : List Event),
        e.id ≠ "" → prev.any (fun ev => ev.id = e.id) = true →
        toggleFavoriteUpdate e prev = prev.filter (fun ev => ev.id ≠ e.id)) ∧
    (∀ (e : Event) (prev : List Event),
        e.id ≠ "" → prev.any (fun ev => ev.id = e.id) = false →
        toggleFavoriteUpdate e prev = prev ++ [e]) ∧
    (∀ (i : String) (prev : List Event),
        i ≠ "" → removeFavoriteUpdate i prev = prev.filter (fun ev => ev.id ≠ i)) ∧
    (∀ (evs prev : List Event),
        addManyFavoritesUpdate evs prev = prev ++ addManyToAdd evs prev) := by
  have happend : ∀ (e : Event) (prev : List Event), IdsNodup prev →
      prev.any (fun ev => ev.id = e.id) = false → IdsNodup (prev ++ [e]) := by
    intro e prev hnd hany
    refine List.pairwise_append.mpr ⟨hnd, List.pairwise_singleton _ _, ?_⟩
    intro a ha b hb
    rw [List.mem_singleton.mp hb]
    have := List.any_eq_false.mp hany a ha
    simpa using this
  have hfilter : ∀ (p : Event → Bool) (prev : List Event), IdsNodup prev →
      IdsNodup (prev.filter p) :=
    fun p prev hnd => hnd.sublist (List.filter_sublist prev)
  refine ⟨?_, ?_, ?_, ?_, ?_, ?_, ?_, ?_, ?_⟩
  · intro e prev hnd
    unfold addFavoriteUpdate
    split_ifs with h1 h2
    · exact hnd
    · exact hnd
    · exact happend e prev hnd (by simpa using h2)
  · intro i prev hnd
    unfold removeFavoriteUpdate
    split_ifs
    · exact hnd
    · exact hfilter _ prev hnd
  · intro e prev hnd
    unfold toggleFavoriteUpdate
    split_ifs with h1 h2
    · exact hnd
    · exact hfilter _ prev hnd
    · exact happend e prev hnd (by simpa using h2)
  · intro evs prev hprev hevs
    unfold addManyFavoritesUpdate
    split_ifs with h1 h2
    · exact hprev
    · exact hprev
    · refine List.pairwise_append.mpr
        ⟨hprev, hevs.sublist (List.filter_sublist evs), ?_⟩
      intro a ha b hb
      rcases List.mem_filter.mp hb with ⟨_, hbp⟩
      simp only [Bool.and_eq_true, Bool.not_eq_true', List.any_eq_false,
        decide_eq_true_eq] at hbp
      exact hbp.2 a ha
  · intro e prev hany
    unfold addFavoriteUpdate
    split_ifs <;> rfl
  · intro e prev hid hany
    unfold toggleFavoriteUpdate
    rw [if_neg hid, if_pos hany]
  · intro e prev hid hany
    unfold toggleFavoriteUpdate
    rw [if_neg hid, if_neg (by simp [hany]), if_neg (by simp [hany])]
  · intro i prev hid
    unfold removeFavoriteUpdate
    rw [if_neg hid]
  · intro evs prev
    unfold addManyFavoritesUpdate
    split_ifs with h1 h2
    · rw [List.isEmpty_iff.mp h1]
      simp [addManyToAdd]
    · rw [List.isEmpty_iff.mp h2]
      simp
    · rfl

/-- Witness for C9: the amended invariant applied to a concrete batch with
distinct ids added onto a concrete favorites list. -/
theorem favorites_updates_amended_witness :
    IdsNodup (addManyFavoritesUpdate [danceEvent, artEvent] [mixedEvent]) :=
  favorites_updates_amended.2.2.2.1 [danceEvent, artEvent] [mixedEvent]
    (by decide) (by decide)

/-- Membership in a day's unsorted entry list: exactly the favorites'
occurrences on that date that pass the type filter. -/
theorem mem_dayEntries (favorites : List Event) (typeFilter dateStr : String)
    (it : DayItem) :
    it ∈ dayEntries favorites typeFilter dateStr ↔
      it.event ∈ favorites ∧ it.time ∈ it.event.times ∧
        it.time.date = dateStr ∧ passesTypeFilter typeFilter it.event = true := by
  obtain ⟨ev0, t0⟩ := it
  unfold dayEntries
  rw [List.mem_flatMap]
  constructor
  · rintro ⟨ev, hev, hit⟩
    rcases List.mem_filterMap.mp hit with ⟨t, ht, hsome⟩
    by_cases hcond : (t.date = dateStr && passesTypeFilter typeFilter ev) = true
    · rw [if_pos hcond] at hsome
      injection hsome with he
      injection he with he1 he2
      subst he1
      subst he2
      simp only [Bool.and_eq_true, decide_eq_true_eq] at hcond
      exact ⟨hev, ht, hcond.1, hcond.2⟩
    · rw [if_neg hcond] at hsome
      exact absurd hsome (by simp)
  · rintro ⟨hev, ht, hdate, htype⟩
    refine ⟨ev0, hev, List.mem_filterMap.mpr ⟨t0, ht, ?_⟩⟩
    rw [if_pos (by
      simp only [Bool.and_eq_true, decide_eq_true_eq]
      exact ⟨hdate, htype⟩)]

/-- Membership in a festival-week column agrees with the unsorted entry
list (sorting permutes). -/
theorem mem_byDate (favorites : List Event) (typeFilter dateStr : String)
    (it : DayItem) (h : dateStr ∈ weekDates) :
    it ∈ byDate favorites typeFilter dateStr ↔
      it ∈ dayEntries favorites typeFilter dateStr := by
  unfold byDate
  rw [if_pos (List.elem_iff.mpr h)]
  exact (List.perm_insertionSort itemLE _).mem_iff

/-- C10: a Week View column shows an occurrence of a favorite only when its
date is one of the seven festival dates 08/24/2025–08/30/2025 and the event
passes the type filter (anything else is silently excluded), each kept
occurrence belongs to that column's date, each column is sorted by
ascending start time, and a missing or malformed start time counts as
00:00. -/
theorem weekView_byDate_spec (favorites : List Event)
    (typeFilter dateStr : String) :
    (dateStr ∉ weekDates → byDate favorites typeFilter dateStr = []) ∧
    (∀ it ∈ byDate favorites typeFilter dateStr,
        dateStr ∈ weekDates ∧ it.event ∈ favorites ∧
        it.time ∈ it.event.times ∧ it.time.date = dateStr ∧
        passesTypeFilter typeFilter it.event = true) ∧
    (dateStr ∈ weekDates → ∀ ev ∈ favorites, ∀ t ∈ ev.times,
        t.date = dateStr → passesTypeFilter typeFilter ev = true →
        (⟨ev, t⟩ : DayItem) ∈ byDate favorites typeFilter dateStr) ∧
    List.Pairwise itemLE (byDate favorites typeFilter dateStr) ∧
    (∀ t : String,
        numVal (timeParts t).1 = none ∨ numVal (timeParts t).2 = none →
        timeToMinutes t = 0) ∧
    timeToMinutes "" = 0 := by
  refine ⟨?_, ?_, ?_, ?_, ?_, rfl⟩
  · intro h
    unfold byDate
    rw [if_neg (fun hc => h (List.elem_iff.mp hc))]
  · intro it hit
    by_cases h : dateStr ∈ weekDates
    · have := (mem_dayEntries favorites typeFilter dateStr it).mp
        ((mem_byDate favorites typeFilter dateStr it h).mp hit)
      exact ⟨h, this.1, this.2.1, this.2.2.1, this.2.2.2⟩
    · rw [show byDate favorites typeFilter dateStr = [] from by
        unfold byDate; rw [if_neg (fun hc => h (List.elem_iff.mp hc))]] at hit
      exact absurd hit (List.not_mem_nil it)
  · intro h ev hev t ht hdate htype
    exact (mem_byDate favorites typeFilter dateStr ⟨ev, t⟩ h).mpr
      ((mem_dayEntries favorites typeFilter dateStr ⟨ev, t⟩).mpr
        ⟨hev, ht, hdate, htype⟩)
  · unfold byDate
    split_ifs
    · exact List.sorted_insertionSort itemLE _
    · exact List.Pairwise.nil
  · intro t h
    unfold timeToMinutes
    split
    · rename_i hv1 hv2
      rcases h with h | h <;> simp_all
    · rfl

/-- Witness for C10: the Thursday-22:00 occurrence of a favorite appears in
the 08/28/2025 column under the all-events filter. -/
theorem weekView_byDate_spec_witness :
    (⟨danceEvent, thursdayNightSlot⟩ : DayItem) ∈
      byDate [danceEvent] "All Events" "08/28/2025" :=
  (weekView_byDate_spec [danceEvent] "All Events" "08/28/2025").2.2.1
    (by decide) danceEvent (by decide) thursdayNightSlot (by decide)
    (by decide) (by decide)

end Burnbot
